import Mathlib

/-!
Verification of the amazbot price-tracking core against its source.

Shallow embedding of:
* `internal/api/api.go` — the `search` extraction/decision cycle
  (price vector update, `minPrice` update, notification-event emission),
  the offers-pagination loop, and the HTTP status classification of
  `getDocWithReq` together with the `Search` reset-and-retry loop;
* `amazbot.go` — `parseArgs` (search-key parsing/normalization) and the
  dedup cache used by the notification callback in `bot.search`
  (a TTL cache in the style of patrickmn/go-cache, `cache.New(6h, 6h)`).

Modelling conventions: Go `float64` prices are embedded as `ℚ` (the
claims under study only use ordering and equality with 0, never
rounding); Go strings handled char-by-char (`strings.Split`, `Trim`,
`ToLower`, `ReplaceAll`) are embedded as `List Char`; times are `ℕ`;
SHA-256 page-content hashes are compared via text equality (the
collision-freeness abstraction), the initial zero hash being `none`.
-/

/-! ### Price vectors and items (api.go `Item`, `[5]float64`) -/

/-- Embedding of Go `[5]float64`: one price slot per condition tier
(0 = new, 1..4 = used grades). `0` means "not observed". -/
structure Vec5 where
  a0 : ℚ
  a1 : ℚ
  a2 : ℚ
  a3 : ℚ
  a4 : ℚ
deriving DecidableEq

/-- Indexing a `Vec5` by a natural number, as Go `prices[i]` (only
indices 0..4 are ever used by the loops below). -/
def Vec5.nth (v : Vec5) : ℕ → ℚ
  | 0 => v.a0
  | 1 => v.a1
  | 2 => v.a2
  | 3 => v.a3
  | 4 => v.a4
  | _ => 0

/-- Embedding of `api.Item` (api.go lines 25-32). -/
structure Item where
  id : String
  domain : String
  link : String
  title : String
  minPrice : ℚ
  prices : Vec5
deriving DecidableEq

/-! ### Decision policy (api.go `search`, lines 237-280) -/

/-- api.go lines 242-246:
`if item.MinPrice == 0 || prices[0] < item.MinPrice { item.MinPrice = prices[0]; newMin = true }`.
Returns the updated `MinPrice` and the `newMin` flag. -/
def updateMin (minPrice p0 : ℚ) : ℚ × Bool :=
  if minPrice = 0 ∨ p0 < minPrice then (p0, true) else (minPrice, false)

/-- The stored `minPrice` after one successful extraction cycle with
tier-0 snapshot price `snap.a0`. -/
def minPriceStep (minPrice : ℚ) (snap : Vec5) : ℚ :=
  (updateMin minPrice snap.a0).1

/-- The per-tier skip chain of api.go lines 252-279 (the five `continue`
guards), as a single emission test. `prevMin` is the `MinPrice` stored at
the start of the cycle, `newMinPrice`/`newMin` the result of `updateMin`,
`prev` the previously stored price vector, `snap` the fresh snapshot. -/
def emitTier (prevMin newMinPrice : ℚ) (newMin : Bool) (prev snap : Vec5) (i : ℕ) : Bool :=
  if snap.nth i = 0 then false
  else if prevMin = 0 ∧ i = 0 then false
  else if i = 0 ∧ newMin = false then false
  else if 0 < prev.nth i ∧ prev.nth i ≤ snap.nth i then false
  else if 0 < i ∧ 0 < newMinPrice ∧ newMinPrice ≤ snap.nth i then false
  else true

/-- The tiers for which `callback(*item, i)` fires in one cycle
(api.go lines 252-280). The Go loop `break`s at `i > maxState`; since
`i` ranges over `0,1,2,3,4` in increasing order this is the
`takeWhile (i ≤ maxState)` prefix. -/
def searchEvents (minPrice : ℚ) (prev snap : Vec5) (maxState : ℕ) : List ℕ :=
  let um := updateMin minPrice snap.a0
  ((List.range 5).takeWhile (fun i => decide (i ≤ maxState))).filter
    (emitTier minPrice um.1 um.2 prev snap)

/-- api.go lines 237-251: the item mutation of a successful cycle
(identity fields overwritten, `MinPrice` via `updateMin`, `Prices`
replaced by the snapshot). -/
def searchUpdate (item : Item) (id domain link title : String) (snap : Vec5) : Item :=
  { id := id, domain := domain, link := link, title := title,
    minPrice := (updateMin item.minPrice snap.a0).1, prices := snap }

/-- api.go lines 219-226: `found` is true iff some tier price is nonzero. -/
def foundPrices (snap : Vec5) : Bool :=
  decide (snap.a0 ≠ 0) || decide (snap.a1 ≠ 0) || decide (snap.a2 ≠ 0) ||
    decide (snap.a3 ≠ 0) || decide (snap.a4 ≠ 0)

/-- The post-pagination phase of api.go `search` (lines 219-283): if no
tier price was found the item is left untouched, no callback fires and
`nil` is returned (soft failure); otherwise the item is updated and the
emission loop runs. Result: (item after the cycle, tiers notified,
returned error). -/
def searchCycle (item : Item) (id domain link title : String) (snap : Vec5)
    (maxState : ℕ) : Item × List ℕ × Option String :=
  if foundPrices snap then
    (searchUpdate item id domain link title snap,
     searchEvents item.minPrice item.prices snap maxState, none)
  else
    (item, [], none)

/-! ### Offers pagination (api.go `search`, lines 195-217) -/

/-- Number of offer pages fetched by the pagination loop of api.go lines
197-217, starting at page `i` with previous-page hash `prev` (`none`
models the initial zero SHA-256, which matches no page text; hash
equality is modelled as text equality). The loop body: fetch page `i`,
stop if its text hashes like the previous page, else remember the hash,
stop if `i > 10`, else continue with `i+1`. -/
def fetchCount (feed : ℕ → String) (i : ℕ) (prev : Option String) : ℕ :=
  if prev = some (feed i) then 1
  else if 10 < i then 1
  else 1 + fetchCount feed (i + 1) (some (feed i))
termination_by 11 - i
decreasing_by simp_wf; omega

/-! ### parseArgs (amazbot.go lines 308-324) -/

/-- ASCII lowercasing of one character, as `strings.ToLower` acts on the
ASCII range (the embedding of Go strings restricted to ASCII). -/
def lowerChar : Char → Char
  | 'A' => 'a'
  | 'B' => 'b'
  | 'C' => 'c'
  | 'D' => 'd'
  | 'E' => 'e'
  | 'F' => 'f'
  | 'G' => 'g'
  | 'H' => 'h'
  | 'I' => 'i'
  | 'J' => 'j'
  | 'K' => 'k'
  | 'L' => 'l'
  | 'M' => 'm'
  | 'N' => 'n'
  | 'O' => 'o'
  | 'P' => 'p'
  | 'Q' => 'q'
  | 'R' => 'r'
  | 'S' => 's'
  | 'T' => 't'
  | 'U' => 'u'
  | 'V' => 'v'
  | 'W' => 'w'
  | 'X' => 'x'
  | 'Y' => 'y'
  | 'Z' => 'z'
  | c => c

/-- One character of `strings.ReplaceAll(s, " ", "+")`. -/
def plusChar (c : Char) : Char :=
  if c == ' ' then '+' else c

/-- `strings.Trim(s, " ")`: drop leading and trailing spaces. -/
def trimSpace (l : List Char) : List Char :=
  ((l.dropWhile (fun c => c == ' ')).reverse.dropWhile (fun c => c == ' ')).reverse

/-- `strings.Split(s, sep)` for a one-character separator. -/
def splitChar (sep : Char) : List Char → List (List Char)
  | [] => [[]]
  | c :: cs =>
    match splitChar sep cs with
    | [] => [[]]
    | l :: ls => if c = sep then [] :: l :: ls else (c :: l) :: ls

/-- amazbot.go line 320: `strings.ToLower(strings.Trim(p.chat, " "))`. -/
def normChat (l : List Char) : List Char :=
  (trimSpace l).map lowerChar

/-- amazbot.go line 321:
`strings.ReplaceAll(strings.Trim(p.query, " "), " ", "+")`. -/
def normQuery (l : List Char) : List Char :=
  (trimSpace l).map plusChar

/-- Embedding of the `parsedArgs` struct (amazbot.go lines 302-306). -/
structure parsedArgs where
  id : List Char
  chat : List Char
  query : List Char
deriving DecidableEq

/-- Assembles the `parsedArgs` value returned by `parseArgs` from the
already-normalized chat and query, with
`p.id = fmt.Sprintf("%s/%s", p.chat, p.query)` and the `nil` error. -/
def mkParsed (c q : List Char) : parsedArgs × Option String :=
  ({ id := c ++ '/' :: q, chat := c, query := q }, none)

/-- amazbot.go lines 308-324. `strings.Split(args, "/")`; one part keeps
the supplied `chat` and uses the part as query; otherwise the first part
is the chat and the second the query (further parts are dropped); both
are then normalized. The `[]` arm is unreachable (`splitChar` never
returns `[]`). The error result is always `none` (`return p, nil`). -/
def parseArgs (args chat : List Char) : parsedArgs × Option String :=
  match splitChar '/' args with
  | [q] => mkParsed (normChat chat) (normQuery q)
  | c :: q :: _ => mkParsed (normChat c) (normQuery q)
  | [] => mkParsed (normChat chat) (normQuery [])

/-! ### Dedup cache (amazbot.go lines 49-50 and 346-354) -/

/-- Renders a price with two decimals, as `%.2f` does for the
nonnegative prices that reach the fingerprint. -/
def format2f (q : ℚ) : String :=
  let c : ℤ := round (q * 100)
  toString (c / 100) ++ "." ++ (if c % 100 < 10 then "0" else "") ++ toString (c % 100)

/-- amazbot.go line 347:
`fmt.Sprintf("%s/%s/%d/%.2f", parsed.chat, i.ID, state, i.Prices[state])`. -/
def fingerprint (chat id : String) (state : ℕ) (price : ℚ) : String :=
  chat ++ "/" ++ id ++ "/" ++ toString state ++ "/" ++ format2f price

/-- go-cache `Get`: an entry is found iff it exists and either has no
expiration (`Expiration <= 0`) or has not expired (`now <= Expiration`).
The entry list is newest-first, so `List.lookup` sees the latest `Set`. -/
def cacheGet (entries : List (String × ℕ)) (now : ℕ) (k : String) : Bool :=
  match entries.lookup k with
  | none => false
  | some exp => if 0 < exp then decide (now ≤ exp) else true

/-- go-cache `Set` with `cache.DefaultExpiration`: record expiry
`now + ttl` (the cache was built with `cache.New(6h, 6h)`). -/
def cacheSet (entries : List (String × ℕ)) (now ttl : ℕ) (k : String) :
    List (String × ℕ) :=
  (k, now + ttl) :: entries

/-- The notification callback of amazbot.go lines 346-354 for one
fingerprint `k` at time `now`: if the fingerprint is cached, no message
is sent; otherwise the message is sent and the fingerprint cached. -/
def notifyStep (entries : List (String × ℕ)) (ttl now : ℕ) (k : String) :
    Bool × List (String × ℕ) :=
  if cacheGet entries now k then (false, entries)
  else (true, cacheSet entries now ttl k)

/-- Runs the callback over a sequence of (time, fingerprint) requests,
returning the requests for which a message was actually sent. -/
def runNotify (ttl : ℕ) : List (String × ℕ) → List (ℕ × String) → List (ℕ × String)
  | _, [] => []
  | entries, (t, k) :: rest =>
    if cacheGet entries t k then runNotify ttl entries rest
    else (t, k) :: runNotify ttl (cacheSet entries t ttl k) rest

/-- The times at which fingerprint `k` actually produced a message,
starting from an empty cache. -/
def sendTimes (ttl : ℕ) (k : String) (reqs : List (ℕ × String)) : List ℕ :=
  ((runNotify ttl [] reqs).filter (fun e => e.2 == k)).map Prod.fst

/-! ### Status classification and retry loop (api.go lines 122-155, 357-371) -/

/-- Error classification of `getDocWithReq` (api.go lines 366-371). -/
inductive FetchErr where
  | retriable
  | httpStatus (code : ℕ)
deriving DecidableEq

/-- api.go lines 366-371: 502 and 503 both map to the retriable error;
any other status except 200/202 is a fatal invalid-status error. The
`Bool` records whether `getDocWithReq` itself resets the session before
returning — the function never does (no `reset` call appears in it;
resets happen only in `Search`). -/
def getDocStatus (code : ℕ) : Option FetchErr × Bool :=
  if code = 502 ∨ code = 503 then (some .retriable, false)
  else if code ≠ 200 ∧ code ≠ 202 then (some (.httpStatus code), false)
  else (none, false)

/-- Outcome of one `c.search` attempt, as seen by the `Search` loop. -/
inductive CycleResult where
  | timeout
  | retriable
  | fatal
  | ok
deriving DecidableEq

/-- Final state of the `Search` loop. -/
inductive SearchOutcome where
  | running
  | errRetriable
  | errFatal
  | success
deriving DecidableEq

/-- The `Search` retry loop (api.go lines 133-154) over a list of
successive `c.search` outcomes, with the `retry` flag; returns how many
`c.reset` calls the loop performs and how it ends (`running` if the
given outcome list is exhausted without returning). A timeout retries
without reset; a retriable error resets, then returns it if `retry` was
already set, else sets `retry` and tries again; anything else returns. -/
def searchRetry : List CycleResult → Bool → ℕ × SearchOutcome
  | [], _ => (0, .running)
  | .timeout :: rest, retry => searchRetry rest retry
  | .retriable :: rest, retry =>
    if retry then (1, .errRetriable)
    else ((searchRetry rest true).1 + 1, (searchRetry rest true).2)
  | .fatal :: _, _ => (0, .errFatal)
  | .ok :: _, _ => (0, .success)

/-- A feed whose pages never stabilize: every page has fresh text, so the
hash-equality stop never fires and only the page bound stops the loop. -/
def feedDistinct : ℕ → String := fun n => String.mk (List.replicate n 'a')

/-! ### Helper lemmas: dropWhile / trim -/

theorem dropWhile_eq_self_of_head (p : Char → Bool) (l : List Char)
    (h : ∀ c, l.head? = some c → p c = false) : l.dropWhile p = l := by
  cases l with
  | nil => rfl
  | cons c cs => simp [List.dropWhile_cons, h c rfl]

theorem head_dropWhile_false (p : Char → Bool) (l : List Char) :
    ∀ c, (l.dropWhile p).head? = some c → p c = false := by
  induction l with
  | nil => intro c h; simp at h
  | cons a l ih =>
    intro c h
    rw [List.dropWhile_cons] at h
    by_cases hp : p a
    · rw [if_pos hp] at h; exact ih c h
    · rw [if_neg hp] at h
      simp only [List.head?_cons, Option.some.injEq] at h
      subst h
      exact Bool.eq_false_iff.mpr hp

theorem getLast_dropWhile (p : Char → Bool) (l : List Char)
    (h : l.dropWhile p ≠ []) : (l.dropWhile p).getLast? = l.getLast? := by
  induction l with
  | nil => simp [List.dropWhile] at h
  | cons a l ih =>
    rw [List.dropWhile_cons]
    by_cases hp : p a
    · rw [List.dropWhile_cons, if_pos hp] at h
      rw [if_pos hp, ih h]
      have hl : l ≠ [] := by
        intro he
        subst he
        simp [List.dropWhile] at h
      cases l with
      | nil => exact absurd rfl hl
      | cons b m => simp
    · rw [if_neg hp]

theorem mem_dropWhile (p : Char → Bool) (l : List Char) (c : Char)
    (h : c ∈ l.dropWhile p) : c ∈ l := by
  induction l with
  | nil => simp [List.dropWhile] at h
  | cons a l ih =>
    rw [List.dropWhile_cons] at h
    by_cases hp : p a
    · rw [if_pos hp] at h; exact List.mem_cons_of_mem a (ih h)
    · rw [if_neg hp] at h; exact h

theorem dropWhile_map_eq (f : Char → Char) (p : Char → Bool) (l : List Char) :
    (l.map f).dropWhile p = (l.dropWhile fun a => p (f a)).map f := by
  induction l with
  | nil => rfl
  | cons a l ih =>
    simp only [List.map_cons, List.dropWhile_cons]
    by_cases hp : p (f a) <;> simp [hp, ih]

theorem trimSpace_head (l : List Char) :
    ∀ c, (trimSpace l).head? = some c → (c == ' ') = false := by
  intro c h
  unfold trimSpace at h
  rw [List.head?_reverse] at h
  by_cases he : ((l.dropWhile (fun c => c == ' ')).reverse.dropWhile (fun c => c == ' ')) = []
  · rw [he] at h; simp at h
  · rw [getLast_dropWhile _ _ he, List.getLast?_reverse] at h
    exact head_dropWhile_false _ _ c h

theorem trimSpace_last (l : List Char) :
    ∀ c, (trimSpace l).getLast? = some c → (c == ' ') = false := by
  intro c h
  unfold trimSpace at h
  rw [List.getLast?_reverse] at h
  exact head_dropWhile_false _ _ c h

theorem trimSpace_eq_self (l : List Char)
    (h1 : ∀ c, l.head? = some c → (c == ' ') = false)
    (h2 : ∀ c, l.getLast? = some c → (c == ' ') = false) :
    trimSpace l = l := by
  unfold trimSpace
  rw [dropWhile_eq_self_of_head _ _ h1]
  rw [dropWhile_eq_self_of_head _ _ (by intro c hc; rw [List.head?_reverse] at hc; exact h2 c hc)]
  exact List.reverse_reverse l

theorem trimSpace_idem (l : List Char) : trimSpace (trimSpace l) = trimSpace l :=
  trimSpace_eq_self _ (trimSpace_head l) (trimSpace_last l)

theorem trimSpace_map (f : Char → Char) (hf : ∀ a, ((f a) == ' ') = (a == ' '))
    (l : List Char) : trimSpace (l.map f) = (trimSpace l).map f := by
  unfold trimSpace
  have hfun : (fun a => ((f a) == ' ')) = (fun a : Char => (a == ' ')) := funext hf
  rw [dropWhile_map_eq, hfun, ← List.map_reverse, dropWhile_map_eq, hfun, ← List.map_reverse]

theorem mem_trimSpace (l : List Char) (c : Char) (h : c ∈ trimSpace l) : c ∈ l := by
  unfold trimSpace at h
  rw [List.mem_reverse] at h
  have h2 := mem_dropWhile _ _ _ h
  rw [List.mem_reverse] at h2
  exact mem_dropWhile _ _ _ h2

theorem trimSpace_nospace (l : List Char) (h : ∀ c ∈ l, (c == ' ') = false) :
    trimSpace l = l := by
  refine trimSpace_eq_self l (fun c hc => ?_) (fun c hc => ?_)
  · exact h c (List.mem_of_mem_head? hc)
  · exact h c (List.mem_of_mem_getLast? hc)

/-! ### Helper lemmas: splitChar -/

theorem splitChar_ne_nil (sep : Char) (l : List Char) : splitChar sep l ≠ [] := by
  cases l with
  | nil => simp [splitChar]
  | cons c cs =>
    simp only [splitChar]
    split
    · simp
    · split <;> simp

theorem not_mem_of_mem_splitChar (sep : Char) (l : List Char) :
    ∀ x ∈ splitChar sep l, sep ∉ x := by
  induction l with
  | nil =>
    intro x hx
    simp [splitChar] at hx
    subst hx
    simp
  | cons c cs ih =>
    intro x hx
    rw [splitChar] at hx
    cases h : splitChar sep cs with
    | nil => exact absurd h (splitChar_ne_nil sep cs)
    | cons l0 ls =>
      rw [h] at hx
      dsimp only at hx
      by_cases hc : c = sep
      · rw [if_pos hc] at hx
        rcases List.mem_cons.mp hx with he | hx
        · subst he; simp
        · exact ih x (h ▸ hx)
      · rw [if_neg hc] at hx
        rcases List.mem_cons.mp hx with he | hx
        · subst he
          intro hs
          rcases List.mem_cons.mp hs with hs | hs
          · exact hc hs.symm
          · exact ih l0 (h ▸ List.mem_cons_self l0 ls) hs
        · exact ih x (h ▸ List.mem_cons_of_mem l0 hx)

theorem splitChar_no_sep (sep : Char) (l : List Char) (h : sep ∉ l) :
    splitChar sep l = [l] := by
  induction l with
  | nil => rfl
  | cons c cs ih =>
    have hc : ¬c = sep := fun e => h (e ▸ List.mem_cons_self c cs)
    have hcs : sep ∉ cs := fun m => h (List.mem_cons_of_mem c m)
    rw [splitChar, ih hcs]
    simp [hc]

theorem splitChar_append (sep : Char) (a b : List Char) (ha : sep ∉ a) :
    splitChar sep (a ++ sep :: b) = a :: splitChar sep b := by
  induction a with
  | nil =>
    simp only [List.nil_append]
    cases h : splitChar sep b with
    | nil => exact absurd h (splitChar_ne_nil sep b)
    | cons l ls => rw [splitChar, h]; simp
  | cons c a ih =>
    have hc : ¬c = sep := fun e => ha (e ▸ List.mem_cons_self c a)
    have ha2 : sep ∉ a := fun m => ha (List.mem_cons_of_mem c m)
    rw [List.cons_append, splitChar, ih ha2]
    simp [hc]

/-! ### Helper lemmas: characters and normalization -/

theorem lowerChar_fix (d : Char)
    (hd : d ∉ [ 'A', 'B', 'C', 'D', 'E', 'F', 'G', 'H', 'I', 'J', 'K', 'L', 'M',
      'N', 'O', 'P', 'Q', 'R', 'S', 'T', 'U', 'V', 'W', 'X', 'Y', 'Z' ]) :
    lowerChar d = d := by
  unfold lowerChar
  split <;> first | rfl | exact absurd (by decide) hd

theorem lowerChar_not_upper (c : Char) :
    lowerChar c ∉ [ 'A', 'B', 'C', 'D', 'E', 'F', 'G', 'H', 'I', 'J', 'K', 'L', 'M',
      'N', 'O', 'P', 'Q', 'R', 'S', 'T', 'U', 'V', 'W', 'X', 'Y', 'Z' ] := by
  unfold lowerChar
  split <;> first | decide | simp_all

theorem lowerChar_idem (c : Char) : lowerChar (lowerChar c) = lowerChar c :=
  lowerChar_fix (lowerChar c) (lowerChar_not_upper c)

theorem lowerChar_space (c : Char) (h : lowerChar c = ' ') : c = ' ' := by
  unfold lowerChar at h
  split at h <;> first | exact h | exact absurd h (by decide)

theorem lowerChar_beq_space (c : Char) : ((lowerChar c) == ' ') = (c == ' ') := by
  by_cases h : c = ' '
  · subst h; rfl
  · have h2 : lowerChar c ≠ ' ' := fun e => h (lowerChar_space c e)
    simp [h, h2]

theorem plusChar_beq_space (a : Char) : ((plusChar a) == ' ') = false := by
  unfold plusChar
  by_cases h : a = ' '
  · simp [h]
  · simp [h]

theorem plusChar_idem (a : Char) : plusChar (plusChar a) = plusChar a := by
  unfold plusChar
  by_cases h : a = ' ' <;> simp [h]

theorem plusChar_slash (a : Char) (h : plusChar a = '/') : a = '/' := by
  unfold plusChar at h
  by_cases ha : a = ' '
  · simp [ha] at h
  · simpa [ha] using h

theorem normChat_fix (l : List Char) : normChat (normChat l) = normChat l := by
  unfold normChat
  rw [trimSpace_map lowerChar lowerChar_beq_space, trimSpace_idem, List.map_map]
  exact List.map_congr_left (fun a _ => lowerChar_idem a)

theorem normQuery_nospace (l : List Char) :
    ∀ c ∈ normQuery l, (c == ' ') = false := by
  intro c hc
  unfold normQuery at hc
  rcases List.mem_map.mp hc with ⟨a, _, ha⟩
  rw [← ha]
  exact plusChar_beq_space a

theorem normQuery_fix (l : List Char) : normQuery (normQuery l) = normQuery l := by
  conv_lhs => rw [normQuery, trimSpace_nospace _ (normQuery_nospace l)]
  unfold normQuery
  rw [List.map_map]
  exact List.map_congr_left (fun a _ => plusChar_idem a)

theorem slash_not_mem_normQuery (l : List Char) (h : '/' ∉ l) : '/' ∉ normQuery l := by
  intro hc
  unfold normQuery at hc
  rcases List.mem_map.mp hc with ⟨a, ha, he⟩
  have h3 : a = '/' := plusChar_slash a he
  rw [h3] at ha
  exact h (mem_trimSpace l _ ha)

/-! ### Helper lemmas: parseArgs round trip -/

theorem parseArgs_shape (args chat : List Char) :
    ∃ x y, (parseArgs args chat).1 =
        { id := normChat x ++ '/' :: normQuery y, chat := normChat x, query := normQuery y } ∧
      y ∈ splitChar '/' args := by
  unfold parseArgs
  cases h : splitChar '/' args with
  | nil => exact absurd h (splitChar_ne_nil _ _)
  | cons q ls =>
    cases ls with
    | nil => exact ⟨chat, q, rfl, h ▸ List.mem_singleton_self q⟩
    | cons q2 ls2 => exact ⟨q, q2, rfl, h ▸ List.mem_cons_of_mem q (List.mem_cons_self q2 ls2)⟩

theorem reparse_core (c q chat2 : List Char) (hc : '/' ∉ c) (hq : '/' ∉ q)
    (hcfix : normChat c = c) (hqfix : normQuery q = q) :
    parseArgs (c ++ '/' :: q) chat2 =
      ({ id := c ++ '/' :: q, chat := c, query := q }, none) := by
  unfold parseArgs
  rw [splitChar_append _ _ _ hc, splitChar_no_sep _ _ hq]
  simp [mkParsed, hcfix, hqfix]

/-! ### Helper lemmas: dedup cache -/

theorem cacheGet_false_lt (entries : List (String × ℕ)) (now : ℕ) (k : String)
    (exp : ℕ) (hl : entries.lookup k = some exp) (hexp : 0 < exp)
    (hg : cacheGet entries now k = false) : exp < now := by
  unfold cacheGet at hg
  rw [hl] at hg
  simp only [hexp, if_true, if_pos] at hg
  simp at hg
  omega

theorem runNotify_mem_gt (ttl : ℕ) (k : String) :
    ∀ (reqs : List (ℕ × String)) (entries : List (String × ℕ)) (exp t : ℕ),
      entries.lookup k = some exp → 0 < exp →
      (t, k) ∈ runNotify ttl entries reqs → exp < t := by
  intro reqs
  induction reqs with
  | nil => intro entries exp t _ _ hm; simp [runNotify] at hm
  | cons r rest ih =>
    obtain ⟨t0, k0⟩ := r
    intro entries exp t hl hexp hm
    rw [runNotify] at hm
    by_cases hg : cacheGet entries t0 k0
    · rw [if_pos hg] at hm
      exact ih entries exp t hl hexp hm
    · rw [if_neg hg] at hm
      rcases List.mem_cons.mp hm with he | hm
      · rw [Prod.mk.injEq] at he
        obtain ⟨ht, hk⟩ := he
        subst ht
        subst hk
        exact cacheGet_false_lt entries t k exp hl hexp (Bool.eq_false_iff.mpr hg)
      · by_cases hk : k0 = k
        · subst hk
          have hl2 : (cacheSet entries t0 ttl k0).lookup k0 = some (t0 + ttl) := by
            simp [cacheSet, List.lookup]
          have hlt : exp < t0 :=
            cacheGet_false_lt entries t0 k0 exp hl hexp (Bool.eq_false_iff.mpr hg)
          have h0 : 0 < t0 + ttl := by omega
          have := ih (cacheSet entries t0 ttl k0) (t0 + ttl) t hl2 h0 hm
          omega
        · have hne : (k == k0) = false := beq_eq_false_iff_ne.mpr fun e => hk e.symm
          have hl2 : (cacheSet entries t0 ttl k0).lookup k = some exp := by
            simp only [cacheSet, List.lookup, hne]
            exact hl
          exact ih (cacheSet entries t0 ttl k0) exp t hl2 hexp hm

theorem runNotify_pairwise (ttl : ℕ) (httl : 0 < ttl) (k : String) :
    ∀ (reqs : List (ℕ × String)) (entries : List (String × ℕ)),
      (((runNotify ttl entries reqs).filter (fun e => e.2 == k)).map Prod.fst).Pairwise
        (fun a b => a + ttl < b) := by
  intro reqs
  induction reqs with
  | nil => intro entries; simp [runNotify]
  | cons r rest ih =>
    obtain ⟨t0, k0⟩ := r
    intro entries
    rw [runNotify]
    by_cases hg : cacheGet entries t0 k0
    · rw [if_pos hg]
      exact ih entries
    · rw [if_neg hg]
      by_cases hk : k0 = k
      · subst hk
        rw [List.filter_cons_of_pos (by simp)]
        rw [List.map_cons]
        refine List.pairwise_cons.mpr ⟨?_, ih _⟩
        intro b hb
        rcases List.mem_map.mp hb with ⟨e, he, hbe⟩
        have he2 := List.mem_filter.mp he
        have hek : e.2 = k0 := by simpa using he2.2
        have hm : (b, k0) ∈ runNotify ttl (cacheSet entries t0 ttl k0) rest := by
          have : e = (b, k0) := by
            obtain ⟨e1, e2⟩ := e
            simp only [Prod.mk.injEq]
            exact ⟨hbe, hek⟩
          exact this ▸ he2.1
        have hl2 : (cacheSet entries t0 ttl k0).lookup k0 = some (t0 + ttl) := by
          simp [cacheSet, List.lookup]
        exact runNotify_mem_gt ttl k0 rest (cacheSet entries t0 ttl k0) (t0 + ttl) b hl2
          (by omega) hm
      · rw [List.filter_cons_of_neg (by simpa using hk)]
        exact ih _

theorem runNotify_resend (ttl : ℕ) (k : String) (httl : 0 < ttl) :
    runNotify ttl [] [(0, k), (ttl + 1, k)] = [(0, k), (ttl + 1, k)] := by
  rw [runNotify]
  rw [if_neg (by simp [cacheGet, List.lookup])]
  rw [runNotify]
  rw [if_neg ?h2]
  · rw [runNotify]
  · simp [cacheGet, cacheSet, List.lookup, httl]

/-! ### Helper lemmas: decision policy -/

theorem minPriceStep_le (minPrice : ℚ) (snap : Vec5) (h : minPrice ≠ 0) :
    minPriceStep minPrice snap ≤ minPrice := by
  unfold minPriceStep updateMin
  split
  · rename_i hc
    rcases hc with hc | hc
    · exact absurd hc h
    · exact le_of_lt hc
  · exact le_refl _

theorem emitTier_of_mem (minPrice : ℚ) (prev snap : Vec5) (maxState i : ℕ)
    (h : i ∈ searchEvents minPrice prev snap maxState) :
    emitTier minPrice (updateMin minPrice snap.a0).1 (updateMin minPrice snap.a0).2
      prev snap i = true := by
  unfold searchEvents at h
  exact (List.mem_filter.mp h).2

theorem used_tier_lt_min (minPrice : ℚ) (prev snap : Vec5) (maxState i : ℕ)
    (hi : 0 < i) (h : i ∈ searchEvents minPrice prev snap maxState)
    (hpos : 0 < minPriceStep minPrice snap) :
    snap.nth i < minPriceStep minPrice snap := by
  have he := emitTier_of_mem minPrice prev snap maxState i h
  unfold emitTier at he
  split_ifs at he with h1 h2 h3 h4 h5
  by_contra hc
  push_neg at hc
  exact h5 ⟨hi, hpos, hc⟩

theorem tier0_needs_lower (minPrice : ℚ) (prev snap : Vec5) (maxState : ℕ)
    (h : 0 ∈ searchEvents minPrice prev snap maxState) :
    snap.a0 < minPrice ∧ minPrice ≠ 0 := by
  have he := emitTier_of_mem minPrice prev snap maxState 0 h
  unfold emitTier at he
  split_ifs at he with h1 h2 h3 h4 h5
  have hm : ¬minPrice = 0 := fun e => h2 ⟨e, rfl⟩
  refine ⟨?_, hm⟩
  have h3b : ¬(updateMin minPrice snap.a0).2 = false := fun e => h3 ⟨rfl, e⟩
  unfold updateMin at h3b
  split at h3b
  · rename_i hc
    rcases hc with hc | hc
    · exact absurd hc hm
    · simpa [Vec5.nth] using hc
  · simp at h3b

theorem first_run_no_tier0 (minPrice : ℚ) (prev snap : Vec5) (maxState : ℕ)
    (h : minPrice = 0) : 0 ∉ searchEvents minPrice prev snap maxState := by
  intro hm
  have he := emitTier_of_mem minPrice prev snap maxState 0 hm
  unfold emitTier at he
  split_ifs at he with h1 h2 h3 h4 h5
  exact h2 ⟨h, rfl⟩

/-! ### Helper lemmas: pagination and retry loop -/

theorem fetchCount_le (feed : ℕ → String) (i : ℕ) (prev : Option String) (hi : i ≤ 11) :
    fetchCount feed i prev ≤ 12 - i := by
  rw [fetchCount]
  split
  · omega
  · split
    · omega
    · rename_i h10
      have ih := fetchCount_le feed (i + 1) (some (feed i)) (by omega)
      omega
termination_by 11 - i
decreasing_by simp_wf; omega

theorem fetchCount_distinct : fetchCount feedDistinct 0 none = 12 := by
  simp [fetchCount, feedDistinct]

theorem fetchCount_stable (feed : ℕ → String) (h : feed 1 = feed 0) :
    fetchCount feed 0 none = 2 := by
  rw [fetchCount]
  simp only [reduceCtorEq, if_false]
  rw [if_neg (by omega)]
  rw [fetchCount]
  rw [if_pos (by rw [h])]

theorem searchRetry_resets_le (results : List CycleResult) (retry : Bool) :
    (searchRetry results retry).1 ≤ if retry then 1 else 2 := by
  induction results generalizing retry with
  | nil => simp [searchRetry]
  | cons r rest ih =>
    cases r with
    | timeout => exact ih retry
    | retriable =>
      cases retry with
      | true => simp [searchRetry]
      | false =>
        simp only [searchRetry, if_neg Bool.false_ne_true]
        have := ih true
        simp at this
        simp
        omega
    | fatal => simp [searchRetry]
    | ok => simp [searchRetry]

/-! ### Claims -/

/-- Claim C1, counterexample. The claim states that over an item's
lifetime the stored `minPrice` never increases — it only decreases or is
set once from 0 — including cycles whose snapshot has tier-0 price 0.
This trace refutes it: three successful cycles (each snapshot has some
nonzero tier) drive `minPrice` through `0 → 50 → 0 → 80`. The middle
cycle observes no tier-0 offer (`snap.a0 = 0`) yet, because
`prices[0] < item.MinPrice` holds for `0 < 50`, it clobbers the nonzero
`minPrice 50` to 0; the third cycle then sets it from 0 a second time,
to 80 > 50. -/
theorem C1_counterexample :
    foundPrices ⟨50, 0, 0, 0, 0⟩ = true ∧
    foundPrices ⟨0, 30, 0, 0, 0⟩ = true ∧
    foundPrices ⟨80, 0, 0, 0, 0⟩ = true ∧
    minPriceStep 0 ⟨50, 0, 0, 0, 0⟩ = 50 ∧
    minPriceStep 50 ⟨0, 30, 0, 0, 0⟩ = 0 ∧
    minPriceStep 0 ⟨80, 0, 0, 0, 0⟩ = 80 ∧
    (50 : ℚ) ≠ 0 ∧ (50 : ℚ) < 80 := by decide

/-- Claim C1, amended: within a single successful extraction cycle a
nonzero stored `minPrice` is never replaced by a larger value — the
updated `minPrice` is at most the old one (it may drop to 0 when tier 0
is unobserved, after which a later cycle may set it from 0 again, which
is what the original lifetime claim missed). -/
theorem C1_amended (minPrice : ℚ) (snap : Vec5) (h : minPrice ≠ 0) :
    minPriceStep minPrice snap ≤ minPrice :=
  minPriceStep_le minPrice snap h

/-- Witness for C1_amended at `minPrice = 50`, snapshot `(45,30,0,0,0)`. -/
theorem C1_witness : (50 : ℚ) ≠ 0 ∧ minPriceStep 50 ⟨45, 30, 0, 0, 0⟩ ≤ 50 :=
  ⟨by decide, C1_amended 50 ⟨45, 30, 0, 0, 0⟩ (by decide)⟩

/-- Claim C2, counterexample. The claim states that a used-tier event
(1 ≤ i ≤ maxTierFilter) is never emitted when `snapshot[i] ≥ minPrice`,
including when `minPrice` is 0. Refuted: on a first run (stored item all
zero) with snapshot `(0, 30, 0, 0, 0)` and the default `maxTierFilter`
4, tier 1 is notified although its price 30 is not below the
`minPrice`, which is 0 both before and after the update — the guard
`i > 0 && item.MinPrice > 0 && p >= item.MinPrice` is simply bypassed
when `MinPrice` is 0. -/
theorem C2_counterexample :
    1 ∈ searchEvents 0 ⟨0, 0, 0, 0, 0⟩ ⟨0, 30, 0, 0, 0⟩ 4 ∧
    minPriceStep 0 ⟨0, 30, 0, 0, 0⟩ = 0 ∧
    ¬(Vec5.nth ⟨0, 30, 0, 0, 0⟩ 1 < minPriceStep 0 ⟨0, 30, 0, 0, 0⟩) := by decide

/-- Claim C2, amended: provided the (updated) `minPrice` of the cycle is
positive, a tier-i event with i > 0 is emitted only if the used price is
strictly below that `minPrice`; the `minPrice = 0` case is excluded,
where the guard is bypassed. -/
theorem C2_amended (minPrice : ℚ) (prev snap : Vec5) (maxState i : ℕ)
    (hi : 0 < i) (h : i ∈ searchEvents minPrice prev snap maxState)
    (hpos : 0 < minPriceStep minPrice snap) :
    snap.nth i < minPriceStep minPrice snap :=
  used_tier_lt_min minPrice prev snap maxState i hi h hpos

/-- Witness for C2_amended: stored item `minPrice 50`, prices
`(50,0,0,0,0)`, snapshot `(45,30,0,0,0)`, tier 1 fires and 30 < 45. -/
theorem C2_witness :
    0 < 1 ∧ 1 ∈ searchEvents 50 ⟨50, 0, 0, 0, 0⟩ ⟨45, 30, 0, 0, 0⟩ 4 ∧
    0 < minPriceStep 50 ⟨45, 30, 0, 0, 0⟩ ∧
    Vec5.nth ⟨45, 30, 0, 0, 0⟩ 1 < minPriceStep 50 ⟨45, 30, 0, 0, 0⟩ :=
  ⟨by decide, by decide, by decide,
   C2_amended 50 ⟨50, 0, 0, 0, 0⟩ ⟨45, 30, 0, 0, 0⟩ 4 1 (by decide) (by decide) (by decide)⟩

/-- Claim C3, counterexample. The claim states that for every SearchKey,
re-parsing the canonical rendered id yields the same key back. Refuted:
with `args = "q"` and destination chat `"x/y"` (a chat string may
contain a slash), the produced key has id `"x/y/q"`, chat `"x/y"`,
query `"q"`; re-parsing `"x/y/q"` splits at the first slash, giving id
`"x/y"`, chat `"x"`, query `"y"` — a different key, so the canonical
form is not re-parsed to an identical (id, destination, query). -/
theorem C3_counterexample :
    (parseArgs [ 'q' ] [ 'x', '/', 'y' ]).1 =
      { id := [ 'x', '/', 'y', '/', 'q' ], chat := [ 'x', '/', 'y' ], query := [ 'q' ] } ∧
    (parseArgs ((parseArgs [ 'q' ] [ 'x', '/', 'y' ]).1.id) []).1 =
      { id := [ 'x', '/', 'y' ], chat := [ 'x' ], query := [ 'y' ] } ∧
    (parseArgs ((parseArgs [ 'q' ] [ 'x', '/', 'y' ]).1.id) []).1 ≠
      (parseArgs [ 'q' ] [ 'x', '/', 'y' ]).1 := by decide

/-- Claim C3, amended: whenever the parsed key's destination contains no
slash (the only way a slash can get in is through the supplied chat
parameter), parsing the canonical rendered form `chat ++ "/" ++ query`
returns exactly the same (id, destination, query) and a nil error,
independently of the chat parameter supplied to the re-parse; hence the
canonical form is injective on such keys. -/
theorem C3_amended (args chat chat2 : List Char)
    (h : '/' ∉ (parseArgs args chat).1.chat) :
    parseArgs ((parseArgs args chat).1.id) chat2 = ((parseArgs args chat).1, none) := by
  obtain ⟨x, y, hp, hy⟩ := parseArgs_shape args chat
  rw [hp] at h ⊢
  have hq : '/' ∉ normQuery y :=
    slash_not_mem_normQuery y (not_mem_of_mem_splitChar _ _ y hy)
  exact reparse_core _ _ chat2 h hq (normChat_fix x) (normQuery_fix y)

/-- Witness for C3_amended at `args = "a b"`, chat `" X "`: the key is
(`" x/a+b"`-normalized) chat `"x"`, query `"a+b"`, and re-parsing its id
gives it back. -/
theorem C3_witness :
    '/' ∉ (parseArgs [ 'a', ' ', 'b' ] [ ' ', 'X', ' ' ]).1.chat ∧
    parseArgs ((parseArgs [ 'a', ' ', 'b' ] [ ' ', 'X', ' ' ]).1.id) [] =
      ((parseArgs [ 'a', ' ', 'b' ] [ ' ', 'X', ' ' ]).1, none) :=
  ⟨by decide, C3_amended [ 'a', ' ', 'b' ] [ ' ', 'X', ' ' ] [] (by decide)⟩

/-- Claim C4: stored item with `minPrice = 50` and prices
`(50,0,0,0,0)`, fresh snapshot `(45,30,0,0,0)`, default maxTierFilter 4:
the cycle emits exactly the two events tier 0 and tier 1, and the item's
`minPrice` is updated to 45 (prices to the snapshot), with no error. -/
theorem C4_scenario :
    searchCycle
      { id := "B07X", domain := "es", link := "L", title := "T", minPrice := 50,
        prices := ⟨50, 0, 0, 0, 0⟩ }
      "B07X" "es" "L" "T" ⟨45, 30, 0, 0, 0⟩ 4 =
      ({ id := "B07X", domain := "es", link := "L", title := "T", minPrice := 45,
         prices := ⟨45, 30, 0, 0, 0⟩ }, [0, 1], none) := by decide

/-- Claim C5: a tier-0 event is emitted only if the snapshot's tier-0
price is strictly below the `minPrice` stored at the start of the cycle
or this is the first-run case (`minPrice = 0`); in the first-run case
tier 0 is never emitted (it only establishes `minPrice`); and on a first
snapshot `(20,0,0,0,0)` there are zero events and `minPrice` becomes
20. -/
theorem C5_tier0_policy :
    (∀ (minPrice : ℚ) (prev snap : Vec5) (maxState : ℕ),
      0 ∈ searchEvents minPrice prev snap maxState →
      snap.a0 < minPrice ∨ minPrice = 0) ∧
    (∀ (minPrice : ℚ) (prev snap : Vec5) (maxState : ℕ), minPrice = 0 →
      0 ∉ searchEvents minPrice prev snap maxState) ∧
    searchEvents 0 ⟨0, 0, 0, 0, 0⟩ ⟨20, 0, 0, 0, 0⟩ 4 = [] ∧
    minPriceStep 0 ⟨20, 0, 0, 0, 0⟩ = 20 :=
  ⟨fun minPrice prev snap maxState h =>
      Or.inl (tier0_needs_lower minPrice prev snap maxState h).1,
   first_run_no_tier0, by decide, by decide⟩

/-- Witness for C5_tier0_policy: tier 0 fires at stored `minPrice 50`
with snapshot tier-0 price 45 < 50, and never fires at `minPrice 0`. -/
theorem C5_witness :
    0 ∈ searchEvents 50 ⟨50, 0, 0, 0, 0⟩ ⟨45, 30, 0, 0, 0⟩ 4 ∧
    ((45 : ℚ) < 50 ∨ (50 : ℚ) = 0) ∧
    0 ∉ searchEvents 0 ⟨0, 0, 0, 0, 0⟩ ⟨0, 30, 0, 0, 0⟩ 4 :=
  ⟨by decide,
   C5_tier0_policy.1 50 ⟨50, 0, 0, 0, 0⟩ ⟨45, 30, 0, 0, 0⟩ 4 (by decide),
   C5_tier0_policy.2.1 0 ⟨0, 0, 0, 0, 0⟩ ⟨0, 30, 0, 0, 0⟩ 4 rfl⟩

/-- Claim C6: per (destination, item id, tier, two-decimal price)
fingerprint, the dedup cache lets a notification through at most once
within the TTL window — any two sends of the same fingerprint are more
than `ttl` apart, over an arbitrary request sequence — and after TTL
expiry the same fingerprint can notify again (a request at `ttl + 1`
after a send at 0 goes through). -/
theorem C6_dedup (ttl : ℕ) (chat id : String) (state : ℕ) (price : ℚ)
    (reqs : List (ℕ × String)) (httl : 0 < ttl) :
    (sendTimes ttl (fingerprint chat id state price) reqs).Pairwise
      (fun a b => a + ttl < b) ∧
    runNotify ttl [] [(0, fingerprint chat id state price),
        (ttl + 1, fingerprint chat id state price)] =
      [(0, fingerprint chat id state price), (ttl + 1, fingerprint chat id state price)] :=
  ⟨runNotify_pairwise ttl httl (fingerprint chat id state price) reqs [],
   runNotify_resend ttl (fingerprint chat id state price) httl⟩

/-- Witness for C6_dedup at ttl 2 with a concrete fingerprint and a
concrete request sequence. -/
theorem C6_witness :
    0 < 2 ∧
    (sendTimes 2 (fingerprint "chan" "B07X.es" 1 30)
      [(0, fingerprint "chan" "B07X.es" 1 30), (1, fingerprint "chan" "B07X.es" 1 30),
       (4, fingerprint "chan" "B07X.es" 1 30)]).Pairwise (fun a b => a + 2 < b) :=
  ⟨by decide,
   (C6_dedup 2 "chan" "B07X.es" 1 30
     [(0, fingerprint "chan" "B07X.es" 1 30), (1, fingerprint "chan" "B07X.es" 1 30),
      (4, fingerprint "chan" "B07X.es" 1 30)] (by decide)).1⟩

/-- Claim C7, counterexample. The claim states that pagination stops on
hash repetition or after 11 pages, so no run fetches more pages than
that bound. Refuted: on a feed whose pages never repeat, the loop
fetches 12 pages (pageno 0 through 11 — the `i > 10` check runs after
the fetch of page `i`), exceeding the claimed bound of 11. -/
theorem C7_counterexample :
    fetchCount feedDistinct 0 none = 12 ∧ ¬fetchCount feedDistinct 0 none ≤ 11 := by
  have h := fetchCount_distinct
  exact ⟨h, by omega⟩

/-- Claim C7, amended: the pagination loop always terminates; starting
from page `i ≤ 11` it fetches at most `12 - i` pages (so at most 12 in a
full run — one more than the claimed 11; prices are extracted from at
most the first 11), and when the page text immediately stabilizes it
stops after 2 fetches (hash-repetition stop). -/
theorem C7_amended :
    (∀ (feed : ℕ → String) (i : ℕ) (prev : Option String), i ≤ 11 →
      fetchCount feed i prev ≤ 12 - i) ∧
    (∀ feed : ℕ → String, feed 1 = feed 0 → fetchCount feed 0 none = 2) :=
  ⟨fetchCount_le, fetchCount_stable⟩

/-- Witness for C7_amended on the constant feed. -/
theorem C7_witness :
    ((0 : ℕ) ≤ 11 ∧ fetchCount (fun _ => "page") 0 none ≤ 12 - 0) ∧
    ((fun _ : ℕ => "page") 1 = (fun _ : ℕ => "page") 0 ∧
      fetchCount (fun _ => "page") 0 none = 2) :=
  ⟨⟨by decide, C7_amended.1 (fun _ => "page") 0 none (by decide)⟩,
   ⟨rfl, C7_amended.2 (fun _ => "page") rfl⟩⟩

/-- Claim C8: if the whole pagination pass yields no nonzero tier price,
the cycle returns without error, leaves every field of the stored item
unchanged, and invokes no notification callback. -/
theorem C8_soft_failure (item : Item) (id domain link title : String) (snap : Vec5)
    (maxState : ℕ) (h : foundPrices snap = false) :
    searchCycle item id domain link title snap maxState = (item, [], none) := by
  unfold searchCycle
  rw [h]
  simp

/-- Witness for C8_soft_failure on the all-zero snapshot. -/
theorem C8_witness :
    foundPrices ⟨0, 0, 0, 0, 0⟩ = false ∧
    searchCycle
      { id := "B07X", domain := "es", link := "L", title := "T", minPrice := 50,
        prices := ⟨50, 0, 0, 0, 0⟩ }
      "B07X" "es" "L2" "T2" ⟨0, 0, 0, 0, 0⟩ 4 =
      ({ id := "B07X", domain := "es", link := "L", title := "T", minPrice := 50,
         prices := ⟨50, 0, 0, 0, 0⟩ }, [], none) :=
  ⟨by decide,
   C8_soft_failure
     { id := "B07X", domain := "es", link := "L", title := "T", minPrice := 50,
       prices := ⟨50, 0, 0, 0, 0⟩ }
     "B07X" "es" "L2" "T2" ⟨0, 0, 0, 0, 0⟩ 4 (by decide)⟩

/-- Claim C9, counterexample. The claim states that a 503 additionally
triggers an immediate session reset in the fetch, unlike 502. Refuted:
in `getDocWithReq`, 502 and 503 are handled by the very same branch —
both are classified retriable, and the function performs no session
reset itself (resets happen only in the `Search` loop, equally for
both). -/
theorem C9_counterexample :
    getDocStatus 503 = (some .retriable, false) ∧
    getDocStatus 502 = getDocStatus 503 := by decide

/-- Claim C9, amended: 502 and 503 are both classified retriable with no
immediate reset inside the fetcher; any other non-200/202 status is a
fatal HTTPStatus error; the `Search` loop reacts to a retriable error by
resetting and retrying, a second retriable error resets and surfaces the
error (so at most one reset-and-retry before surfacing), and the loop
never performs more than two resets in total. -/
theorem C9_amended :
    (∀ code : ℕ, code = 502 ∨ code = 503 →
      getDocStatus code = (some .retriable, false)) ∧
    (∀ code : ℕ, code ≠ 502 → code ≠ 503 → code ≠ 200 → code ≠ 202 →
      getDocStatus code = (some (.httpStatus code), false)) ∧
    (∀ rest : List CycleResult, searchRetry (.retriable :: rest) false =
      ((searchRetry rest true).1 + 1, (searchRetry rest true).2)) ∧
    (∀ rest : List CycleResult, searchRetry (.retriable :: rest) true =
      (1, .errRetriable)) ∧
    (∀ (results : List CycleResult) (retry : Bool), (searchRetry results retry).1 ≤ 2) := by
  refine ⟨?_, ?_, ?_, ?_, ?_⟩
  · intro code h
    unfold getDocStatus
    rw [if_pos h]
  · intro code h1 h2 h3 h4
    unfold getDocStatus
    rw [if_neg (by tauto), if_pos ⟨h3, h4⟩]
  · intro rest
    simp [searchRetry]
  · intro rest
    simp [searchRetry]
  · intro results retry
    refine le_trans (searchRetry_resets_le results retry) ?_
    cases retry <;> simp

/-- Witness for C9_amended at statuses 503 and 404 and concrete outcome
lists. -/
theorem C9_witness :
    ((503 : ℕ) = 502 ∨ (503 : ℕ) = 503) ∧
    getDocStatus 503 = (some .retriable, false) ∧
    getDocStatus 404 = (some (.httpStatus 404), false) ∧
    searchRetry [.retriable] true = (1, .errRetriable) ∧
    (searchRetry [.retriable, .retriable] false).1 ≤ 2 :=
  ⟨Or.inr rfl, C9_amended.1 503 (Or.inr rfl),
   C9_amended.2.1 404 (by decide) (by decide) (by decide) (by decide),
   C9_amended.2.2.2.1 [],
   C9_amended.2.2.2.2 [.retriable, .retriable] false⟩

/-- Claim C10: `parseArgs` is total — for every args string and chat it
returns a nil error, so no key is ever rejected at command time or
during the startup reload of persisted keys. -/
theorem C10_parse_total (args chat : List Char) : (parseArgs args chat).2 = none := by
  unfold parseArgs
  cases h : splitChar '/' args with
  | nil => rfl
  | cons q ls => cases ls <;> rfl
